import Mathlib

/-!
Verification of the `poddav/logger` console logger (logger.hpp, logger.cc,
thread_mutex.hpp).  The POSIX (`!_WIN32`) code paths of `logger::line_buffer`
are embedded as pure Lean functions over `List Char`; the environment-supplied
pieces (clock formatting, `sys::write_file` outcomes, `sys::create_file`
outcomes) are passed in explicitly as parameters.  The win32 colored-flush
path is embedded as the list of console operations it performs inside the
process-wide mutex, for reasoning about interleaved output.
-/

namespace Logg

/-- logg::level from logger.hpp (trace, debug, info, warn, error, crit). -/
inductive Level where
  | trace
  | debug
  | info
  | warn
  | error
  | crit

/-- The underlying integer value the C++ enum gives each level. -/
def Level.toNat : Level → Nat
  | .trace => 0
  | .debug => 1
  | .info => 2
  | .warn => 3
  | .error => 4
  | .crit => 5

/-- logg::is_clog_active: `lv >= EXT_LOG_LEVEL`, with the configured
threshold `EXT_LOG_LEVEL` passed explicitly. -/
def is_clog_active (threshold lv : Level) : Bool :=
  decide (threshold.toNat ≤ lv.toNat)

/-- logg::is_cerr_active: `lv >= EXT_LOG_LEVEL`, with the configured
threshold `EXT_LOG_LEVEL` passed explicitly. -/
def is_cerr_active (threshold lv : Level) : Bool :=
  decide (threshold.toNat ≤ lv.toNat)

/-- logg::console_color constants (logger.hpp). -/
def fg_black : Nat := 0

def fg_blue : Nat := 0x0001

def fg_green : Nat := 0x0002

def fg_cyan : Nat := 0x0002 ||| 0x0001

def fg_red : Nat := 0x0004

def fg_magenta : Nat := 0x0004 ||| 0x0001

def fg_yellow : Nat := 0x0004 ||| 0x0002

def fg_white : Nat := 0x0004 ||| 0x0002 ||| 0x0001

def fg_bright : Nat := 0x0008

def fg_color : Nat := fg_white

def bg_black : Nat := 0

def bg_blue : Nat := 0x0010

def bg_green : Nat := 0x0020

def bg_cyan : Nat := 0x0020 ||| 0x0010

def bg_red : Nat := 0x0040

def bg_magenta : Nat := 0x0040 ||| 0x0010

def bg_yellow : Nat := 0x0040 ||| 0x0020

def bg_white : Nat := 0x0040 ||| 0x0020 ||| 0x0010

def bg_bright : Nat := 0x0080

def bg_color : Nat := bg_white

/-- `color_t` is `unsigned short`; the sentinel `(color_t)-1` is 0xFFFF. -/
def color_sentinel : Nat := 0xFFFF

/-- logger::line_buffer::s_limit — max line length. -/
def s_limit : Nat := 1000

/-- The state of a logger::line_buffer (POSIX build: no m_convert_cp). -/
structure LineBuffer where
  m_text : List Char
  m_default_color : Nat

/-- The line_buffer constructor: empty text, m_default_color = -1. -/
def line_buffer_init : LineBuffer :=
  { m_text := [], m_default_color := color_sentinel }

/-- The fields of the owning `logger` object that line_buffer reads. -/
structure Sink where
  m_con : Nat
  m_custom_color : Nat
  m_use_color : Bool
  m_prepend_time : Bool
  m_opened_file : Bool

/-- The foreground `switch (custom_color & logg::fg_color)` in the POSIX
line_buffer::set_custom_color. -/
def foregroundCode (custom_color : Nat) : Option (List Char) :=
  match custom_color &&& fg_color with
  | 0 => some ['3', '0'] -- fg_black
  | 4 => some ['3', '1'] -- fg_red
  | 2 => some ['3', '2'] -- fg_green
  | 6 => some ['3', '3'] -- fg_yellow
  | 1 => some ['3', '4'] -- fg_blue
  | 5 => some ['3', '5'] -- fg_magenta
  | 3 => some ['3', '6'] -- fg_cyan
  | 7 => some ['3', '7'] -- fg_white
  | _ => none

/-- The background `switch (custom_color & logg::bg_color)` in the POSIX
line_buffer::set_custom_color. -/
def backgroundCode (custom_color : Nat) : Option (List Char) :=
  match custom_color &&& bg_color with
  | 0x00 => some ['4', '0'] -- bg_black
  | 0x40 => some ['4', '1'] -- bg_red
  | 0x20 => some ['4', '2'] -- bg_green
  | 0x60 => some ['4', '3'] -- bg_yellow
  | 0x10 => some ['4', '4'] -- bg_blue
  | 0x50 => some ['4', '5'] -- bg_magenta
  | 0x30 => some ['4', '6'] -- bg_cyan
  | 0x70 => some ['4', '7'] -- bg_white
  | _ => none

/-- POSIX line_buffer::set_custom_color: renders the owner's custom color as
an ANSI escape sequence appended to m_text (and records it in
m_default_color), or erases the partial sequence and records the sentinel if
no code was produced. -/
def set_custom_color (custom_color : Nat) (b : LineBuffer) : LineBuffer :=
  if custom_color = color_sentinel then
    { b with m_default_color := color_sentinel }
  else
    let seq_start := b.m_text.length
    let t1 := b.m_text ++ ['\x1b', '[']
    let t2 :=
      match foregroundCode custom_color with
      | some f => t1 ++ f
      | none => t1
    let t3 :=
      match backgroundCode custom_color with
      | some g => (if t2.length - seq_start ≠ 2 then t2 ++ [';'] else t2) ++ g
      | none => t2
    let t4 :=
      if custom_color &&& (fg_bright ||| bg_bright) ≠ 0 then
        (if t3.length - seq_start ≠ 2 then t3 ++ [';'] else t3) ++ ['1']
      else t3
    if t4.length - seq_start > 2 then
      { m_text := t4 ++ ['m'], m_default_color := custom_color }
    else
      { m_text := t4.take seq_start, m_default_color := color_sentinel }

/-- POSIX line_buffer::append_time.  The bytes produced by
gettimeofday/localtime_r/snprintf are environment input, modelled by `ts`
(`[]` when the clock call fails; at most 32 bytes otherwise, as the code
clamps `rc` to `sizeof(cvtbuf)`). -/
def append_time (o : Sink) (ts : List Char) (b : LineBuffer) : LineBuffer :=
  let b1 := if o.m_use_color then set_custom_color o.m_custom_color b else b
  { b1 with m_text := b1.m_text ++ ts }

/-- The "\033[0m" reset sequence appended by the POSIX flush. -/
def reset_seq : List Char := ['\x1b', '[', '0', 'm']

/-- line_buffer::append_crlf, POSIX branch: a single '\n'. -/
def crlf : List Char := ['\n']

/-- POSIX line_buffer::flush.  `env` models `sys::write_file(handle, bytes)`
returning success or failure; flush discards that result.  Returns the new
buffer state and the bytes handed to write_file. -/
def flush (env : Nat → List Char → Bool) (o : Sink) (b : LineBuffer) :
    LineBuffer × List Char :=
  let t1 :=
    if !b.m_text.isEmpty && b.m_default_color != color_sentinel then
      b.m_text ++ reset_seq
    else b.m_text
  let t2 := t1 ++ crlf
  let _rc := env o.m_con t2
  ({ b with m_text := [] }, t2)

/-- The while-loop of line_buffer::append, with explicit fuel (the C++ loop
does not terminate in the degenerate case where the timestamp prefix alone
fills the whole buffer; every theorem below supplies sufficient fuel).
`s_limit - m_text.size()` is size_t arithmetic; in every state reachable
from an empty buffer `m_text.size() ≤ s_limit` holds, where it agrees with
truncated Nat subtraction.  Returns the final buffer state and the flushed
lines in order. -/
def appendLoop (env : Nat → List Char → Bool) (o : Sink) (ts : List Char) :
    Nat → List Char → LineBuffer → List (List Char) →
    LineBuffer × List (List Char)
  | 0, _, b, acc => (b, acc)
  | fuel + 1, buf, b, acc =>
    if s_limit < buf.length + b.m_text.length then
      let chunk := min (s_limit - b.m_text.length) buf.length
      let b1 : LineBuffer := { b with m_text := b.m_text ++ buf.take chunk }
      let fl := flush env o b1
      let buf1 := buf.drop chunk
      let b2 :=
        if buf1.length != 0 && o.m_prepend_time then append_time o ts fl.1
        else fl.1
      appendLoop env o ts fuel buf1 b2 (acc ++ [fl.2])
    else if buf.length != 0 then ({ b with m_text := b.m_text ++ buf }, acc)
    else (b, acc)

/-- line_buffer::append: prepend the timestamp to an empty buffer, then run
the split-and-flush loop. -/
def append (env : Nat → List Char → Bool) (o : Sink) (ts : List Char)
    (buf : List Char) (b : LineBuffer) : LineBuffer × List (List Char) :=
  let b1 :=
    if o.m_prepend_time && b.m_text.isEmpty then append_time o ts b else b
  appendLoop env o ts (buf.length + 2) buf b1 []

/-- logger::overflow for a non-eof character: '\n' flushes, anything else is
appended.  Returns the new buffer state and the flushed lines. -/
def overflow (env : Nat → List Char → Bool) (o : Sink) (ts : List Char)
    (chr : Char) (b : LineBuffer) : LineBuffer × List (List Char) :=
  if chr = '\n' then
    let fl := flush env o b
    (fl.1, [fl.2])
  else append env o ts [chr] b

/-- The loop of logger::xsputn, with fuel (each iteration consumes at least
one input byte, so `buf.length + 1` fuel always suffices). -/
def xsputnLoop (env : Nat → List Char → Bool) (o : Sink) (ts : List Char) :
    Nat → List Char → LineBuffer → List (List Char) →
    LineBuffer × List (List Char)
  | 0, _, b, acc => (b, acc)
  | _, [], b, acc => (b, acc)
  | fuel + 1, buf, b, acc =>
    match buf.findIdx? (fun c => c = '\n') with
    | none =>
      let r := append env o ts buf b
      (r.1, acc ++ r.2)
    | some i =>
      let r := if i ≠ 0 then append env o ts (buf.take i) b else (b, [])
      let fl := flush env o r.1
      xsputnLoop env o ts fuel (buf.drop (i + 1)) fl.1 (acc ++ r.2 ++ [fl.2])

/-- logger::xsputn: split the input at embedded newlines, flushing at each
one.  Returns the new buffer state and all flushed lines in order. -/
def xsputn (env : Nat → List Char → Bool) (o : Sink) (ts : List Char)
    (buf : List Char) (b : LineBuffer) : LineBuffer × List (List Char) :=
  xsputnLoop env o ts (buf.length + 1) buf b []

/-- logger::get_color. -/
def get_color (o : Sink) : Nat := o.m_custom_color

/-- logger::set_color. -/
def set_color (attr : Nat) (o : Sink) : Sink :=
  { o with m_custom_color := attr }

/-- logger::redirect(filename).  The `sys::create_file` outcome is
environment input, modelled by `openResult` (`none` = open failed).
Closing the old handle is an external effect with no modelled state. -/
def redirect_file (env : Nat → List Char → Bool) (openResult : Option Nat)
    (o : Sink) (b : LineBuffer) : Bool × Sink × LineBuffer :=
  match openResult with
  | none => (false, o, b)
  | some h =>
    let fl := flush env o b
    (true,
     { o with m_con := h, m_use_color := false, m_opened_file := true },
     fl.1)

/-- Append `buf` to a fresh line buffer and then flush the remainder (the
caller's terminating newline): all lines written for one logical input. -/
def append_then_flush (env : Nat → List Char → Bool) (o : Sink)
    (ts : List Char) (buf : List Char) : List (List Char) :=
  let r := append env o ts buf line_buffer_init
  r.2 ++ [(flush env o r.1).2]

/-- Greedy reference splitter: cut `buf` into chunks of at most `c` bytes. -/
def chunksOf (c : Nat) (buf : List Char) : List (List Char) :=
  if buf.length ≤ c ∨ c = 0 then [buf]
  else buf.take c :: chunksOf c (buf.drop c)
termination_by buf.length
decreasing_by
  simp only [List.length_drop]
  omega

/-- One console operation performed by the win32 colored flush path. -/
inductive ConsoleEvent where
  | setAttr (c : Nat)
  | writeText (t : List Char)
  | restoreAttr (c : Nat)
  | writeTerm

/-- The inputs of one win32 colored flush: the sink's custom color, whether
GetConsoleScreenBufferInfo succeeded, the console attributes it reported,
and the buffered line text. -/
structure FlushCall where
  custom_color : Nat
  info_ok : Bool
  saved_attr : Nat
  text : List Char

/-- win32 line_buffer::flush on a colorized sink: the sequence of console
operations performed inside the scoped_lock on g_console_mutex, in program
order (set_custom_color, write of the text, conditional attribute restore,
write of "\r\n"). -/
def flushEventsWin32 (f : FlushCall) : List ConsoleEvent :=
  let setApplied := f.custom_color ≠ color_sentinel ∧ f.info_ok = true
  let default_color := if setApplied then f.saved_attr else color_sentinel
  (if setApplied then [ConsoleEvent.setAttr f.custom_color] else []) ++
    [ConsoleEvent.writeText f.text] ++
    (if default_color ≠ color_sentinel then
      [ConsoleEvent.restoreAttr default_color]
    else []) ++
    [ConsoleEvent.writeTerm]

/-- The non-interleaving discipline: every color-set operation in a captured
output is immediately followed by one text write and then a color restore
(so no other thread's color-set can occur between a set and its line). -/
def colorBlockPattern (out : List ConsoleEvent) : Prop :=
  ∀ i c, out.get? i = some (ConsoleEvent.setAttr c) →
    (∃ t, out.get? (i + 1) = some (ConsoleEvent.writeText t)) ∧
    (∃ d, out.get? (i + 2) = some (ConsoleEvent.restoreAttr d))

/-- A write environment that always reports success. -/
def env_true : Nat → List Char → Bool := fun _ _ => true

/-- A concrete sink: color disabled, timestamps enabled (the state of a
logger redirected to a non-tty handle). -/
def o_plain : Sink :=
  { m_con := 2, m_custom_color := color_sentinel, m_use_color := false,
    m_prepend_time := true, m_opened_file := false }

/-- A concrete sink: color enabled with custom color fg_red. -/
def o_red : Sink :=
  { m_con := 2, m_custom_color := fg_red, m_use_color := true,
    m_prepend_time := true, m_opened_file := false }

/-- A concrete 24-byte timestamp, "12:34:56.789 [0012abcd] ", the shape the
POSIX append_time produces. -/
def ts24 : List Char :=
  ['1', '2', ':', '3', '4', ':', '5', '6', '.', '7', '8', '9', ' ',
   '[', '0', '0', '1', '2', 'a', 'b', 'c', 'd', ']', ' ']

end Logg

namespace Logg

lemma colorBlockPattern_nil : colorBlockPattern [] := by
  intro i c h
  simp at h

lemma colorBlockPattern_cons2 (t : List Char) (rest : List ConsoleEvent)
    (h : colorBlockPattern rest) :
    colorBlockPattern
      (ConsoleEvent.writeText t :: ConsoleEvent.writeTerm :: rest) := by
  intro i c hi
  match i with
  | 0 => simp at hi
  | 1 => simp at hi
  | n + 2 =>
    simp only [List.get?_cons_succ] at hi
    obtain ⟨⟨t2, ht⟩, ⟨d, hd⟩⟩ := h n c hi
    exact ⟨⟨t2, by simpa using ht⟩, ⟨d, by simpa using hd⟩⟩

lemma colorBlockPattern_cons4 (c0 : Nat) (t : List Char) (d0 : Nat)
    (rest : List ConsoleEvent) (h : colorBlockPattern rest) :
    colorBlockPattern
      (ConsoleEvent.setAttr c0 :: ConsoleEvent.writeText t ::
        ConsoleEvent.restoreAttr d0 :: ConsoleEvent.writeTerm :: rest) := by
  intro i c hi
  match i with
  | 0 => exact ⟨⟨t, rfl⟩, ⟨d0, rfl⟩⟩
  | 1 => simp at hi
  | 2 => simp at hi
  | 3 => simp at hi
  | n + 4 =>
    simp only [List.get?_cons_succ] at hi
    obtain ⟨⟨t2, ht⟩, ⟨d, hd⟩⟩ := h n c hi
    exact ⟨⟨t2, by simpa using ht⟩, ⟨d, by simpa using hd⟩⟩

/-- C2: every mutex-serialized capture of concurrent win32 colored flushes
satisfies the non-interleaving pattern: a color-set is immediately followed
by that thread's line text and its color restore before any further event,
in particular before any other thread's color-set.  The scoped_lock on
g_console_mutex is modelled by the capture being a concatenation of whole
per-flush event blocks; `hvalid` states that the attribute word the console
reports is a real attribute, not the sentinel. -/
theorem C2_no_color_interleaving (calls : List FlushCall)
    (hvalid : ∀ f ∈ calls, f.saved_attr ≠ color_sentinel) :
    colorBlockPattern ((calls.map flushEventsWin32).flatten) := by
  induction calls with
  | nil => simpa using colorBlockPattern_nil
  | cons f rest ih =>
    have hrest := ih (fun g hg => hvalid g (List.mem_cons_of_mem f hg))
    have hf := hvalid f (List.mem_cons_self f rest)
    simp only [List.map_cons, List.flatten_cons]
    by_cases hset : f.custom_color ≠ color_sentinel ∧ f.info_ok = true
    · have hev : flushEventsWin32 f =
          [ConsoleEvent.setAttr f.custom_color, ConsoleEvent.writeText f.text,
           ConsoleEvent.restoreAttr f.saved_attr, ConsoleEvent.writeTerm] := by
        simp [flushEventsWin32, hset, hf]
      rw [hev]
      exact colorBlockPattern_cons4 _ _ _ _ hrest
    · have hev : flushEventsWin32 f =
          [ConsoleEvent.writeText f.text, ConsoleEvent.writeTerm] := by
        simp [flushEventsWin32, hset]
      rw [hev]
      exact colorBlockPattern_cons2 _ _ hrest

/-- Witness for C2 at a concrete two-thread capture. -/
theorem C2_no_color_interleaving_witness :
    (∀ f ∈ ([⟨15, true, 7, ['h', 'i']⟩, ⟨71, true, 7, ['y', 'o']⟩] :
        List FlushCall), f.saved_attr ≠ color_sentinel) ∧
    colorBlockPattern
      ((([⟨15, true, 7, ['h', 'i']⟩, ⟨71, true, 7, ['y', 'o']⟩] :
        List FlushCall).map flushEventsWin32).flatten) :=
  ⟨by decide, C2_no_color_interleaving _ (by decide)⟩

/-- C4: when the open fails, redirect(filename) returns failure and leaves
the sink (handle, color-enabled flag, handle-ownership flag) and the line
buffer exactly as they were, so later writes still reach the old handle. -/
theorem C4_redirect_failure_no_mutation (env : Nat → List Char → Bool)
    (o : Sink) (b : LineBuffer) :
    redirect_file env none o b = (false, o, b) := rfl

/-- C6: flush always leaves the accumulated text empty, for every write
environment — including one whose write fails — since the code discards the
sys::write_file result and clears unconditionally. -/
theorem C6_flush_clears_buffer (env : Nat → List Char → Bool) (o : Sink)
    (b : LineBuffer) :
    ((flush env o b).1).m_text = [] := rfl

/-- C8: channel activity is exactly `lv ≥ threshold`; in particular with
threshold `warn` a `debug` write is filtered out and a `warn` write is
emitted. -/
theorem C8_threshold_filtering (threshold lv : Level) :
    (is_clog_active threshold lv = true ↔ threshold.toNat ≤ lv.toNat) ∧
    (is_cerr_active threshold lv = true ↔ threshold.toNat ≤ lv.toNat) ∧
    is_clog_active Level.warn Level.debug = false ∧
    is_cerr_active Level.warn Level.warn = true := by
  refine ⟨?_, ?_, by decide, by decide⟩ <;>
    simp [is_clog_active, is_cerr_active]

/-- C9: an explicit flush (a standalone newline reaching overflow) of an
empty line buffer writes exactly one bare line terminator, whatever the
recorded default color is. -/
theorem C9_empty_flush_bare_terminator (env : Nat → List Char → Bool)
    (o : Sink) (ts : List Char) (d : Nat) :
    overflow env o ts '\n' { m_text := [], m_default_color := d } =
      ({ m_text := [], m_default_color := d }, [['\n']]) := by
  simp [overflow, flush, crlf]

/-- C7: append("ab") then append("c\n") through xsputn triggers exactly one
flush, whose line is the timestamp prefix followed by "abc" and the
terminator, and leaves the buffer empty. -/
theorem C7_embedded_newline_single_flush :
    (xsputn env_true o_plain ts24 ['a', 'b'] line_buffer_init).2 = [] ∧
    (xsputn env_true o_plain ts24 ['c', '\n']
      (xsputn env_true o_plain ts24 ['a', 'b'] line_buffer_init).1).2 =
      [ts24 ++ ['a', 'b', 'c', '\n']] ∧
    (xsputn env_true o_plain ts24 ['c', '\n']
      (xsputn env_true o_plain ts24 ['a', 'b'] line_buffer_init).1).1.m_text =
      [] := by decide

/-- C5 (amended): set_color after text is buffered changes neither the
buffered bytes nor the output of the pending flush (the ANSI color sequence
was embedded when the line began); the new color is used by append_time for
the next line that begins after the call. -/
theorem C5_set_color_next_line (env : Nat → List Char → Bool) (o : Sink)
    (b : LineBuffer) (attr : Nat) (ts : List Char)
    (h : o.m_use_color = true) :
    flush env (set_color attr o) b = flush env o b ∧
    append_time (set_color attr o) ts b =
      { m_text := (set_custom_color attr b).m_text ++ ts,
        m_default_color := (set_custom_color attr b).m_default_color } := by
  refine ⟨rfl, ?_⟩
  simp [append_time, set_color, h]

/-- Witness for C5 at a concrete sink. -/
theorem C5_set_color_next_line_witness :
    o_red.m_use_color = true ∧
    (flush env_true (set_color fg_green o_red) line_buffer_init =
        flush env_true o_red line_buffer_init ∧
      append_time (set_color fg_green o_red) [] line_buffer_init =
        { m_text := (set_custom_color fg_green line_buffer_init).m_text ++ [],
          m_default_color :=
            (set_custom_color fg_green line_buffer_init).m_default_color }) :=
  ⟨rfl, C5_set_color_next_line env_true o_red line_buffer_init fg_green [] rfl⟩

/-- C5 counterexample: a line is started under fg_red, set_color(fg_green)
is issued, and the very next flush still emits fg_red's escape sequence
(identical output to not calling set_color at all); the green code "32"
appears nowhere.  The new color does not take effect on that flush. -/
theorem C5_counterexample :
    (flush env_true (set_color fg_green o_red)
        (append env_true o_red [] ['x'] line_buffer_init).1).2 =
      (flush env_true o_red
        (append env_true o_red [] ['x'] line_buffer_init).1).2 ∧
    (flush env_true (set_color fg_green o_red)
        (append env_true o_red [] ['x'] line_buffer_init).1).2 =
      ['\x1b', '[', '3', '1', ';', '4', '0', 'm', 'x',
       '\x1b', '[', '0', 'm', '\n'] ∧
    ¬ '2' ∈
      (flush env_true (set_color fg_green o_red)
        (append env_true o_red [] ['x'] line_buffer_init).1).2 := by
  decide

end Logg

namespace Logg

lemma foregroundCode_eq_some (c : Nat) :
    ∃ f, foregroundCode c = some f ∧ f.length = 2 := by
  have h7 : c &&& fg_color ≤ 7 := Nat.and_le_right
  unfold foregroundCode
  generalize hx : c &&& fg_color = x at h7 ⊢
  interval_cases x <;> exact ⟨_, rfl, rfl⟩

lemma backgroundCode_length {c : Nat} {g : List Char}
    (h : backgroundCode c = some g) : g.length = 2 := by
  unfold backgroundCode at h
  split at h
  all_goals first
    | exact Option.noConfusion h
    | (injection h with h2; rw [← h2]; rfl)

lemma set_custom_color_spec (c : Nat) (b : LineBuffer)
    (h : c ≠ color_sentinel) :
    ∃ s, (set_custom_color c b).m_text = b.m_text ++ s ∧
      5 ≤ s.length ∧ s.length ≤ 10 ∧
      (set_custom_color c b).m_default_color = c := by
  obtain ⟨f, hf, hflen⟩ := foregroundCode_eq_some c
  rcases hbg : backgroundCode c with _ | g
  · by_cases hbr : c &&& (fg_bright ||| bg_bright) ≠ 0
    · unfold set_custom_color
      rw [if_neg h]
      simp only [hf, hbg]
      rw [if_pos hbr]
      have h1 : (b.m_text ++ ['\x1b', '['] ++ f).length - b.m_text.length ≠ 2 := by
        simp only [List.length_append, List.length_cons, List.length_nil, hflen]
        omega
      rw [if_pos h1]
      have h2 : ((b.m_text ++ ['\x1b', '['] ++ f ++ [';']) ++ ['1']).length
          - b.m_text.length > 2 := by
        simp only [List.length_append, List.length_cons, List.length_nil, hflen]
        omega
      rw [if_pos h2]
      refine ⟨['\x1b', '['] ++ f ++ [';', '1', 'm'], by simp, ?_, ?_, rfl⟩
      · simp only [List.length_append, List.length_cons, List.length_nil, hflen]
        omega
      · simp only [List.length_append, List.length_cons, List.length_nil, hflen]
        omega
    · unfold set_custom_color
      rw [if_neg h]
      simp only [hf, hbg]
      rw [if_neg hbr]
      have h2 : (b.m_text ++ ['\x1b', '['] ++ f).length - b.m_text.length > 2 := by
        simp only [List.length_append, List.length_cons, List.length_nil, hflen]
        omega
      rw [if_pos h2]
      refine ⟨['\x1b', '['] ++ f ++ ['m'], by simp, ?_, ?_, rfl⟩
      · simp only [List.length_append, List.length_cons, List.length_nil, hflen]
        omega
      · simp only [List.length_append, List.length_cons, List.length_nil, hflen]
        omega
  · have hglen := backgroundCode_length hbg
    by_cases hbr : c &&& (fg_bright ||| bg_bright) ≠ 0
    · unfold set_custom_color
      rw [if_neg h]
      simp only [hf, hbg]
      have h1 : (b.m_text ++ ['\x1b', '['] ++ f).length - b.m_text.length ≠ 2 := by
        simp only [List.length_append, List.length_cons, List.length_nil, hflen]
        omega
      rw [if_pos h1]
      rw [if_pos hbr]
      have h2 : ((b.m_text ++ ['\x1b', '['] ++ f ++ [';']) ++ g).length
          - b.m_text.length ≠ 2 := by
        simp only [List.length_append, List.length_cons, List.length_nil, hflen, hglen]
        omega
      rw [if_pos h2]
      have h3 : ((((b.m_text ++ ['\x1b', '['] ++ f ++ [';']) ++ g) ++ [';']) ++ ['1']).length
          - b.m_text.length > 2 := by
        simp only [List.length_append, List.length_cons, List.length_nil, hflen, hglen]
        omega
      rw [if_pos h3]
      refine ⟨['\x1b', '['] ++ f ++ [';'] ++ g ++ [';', '1', 'm'], by simp, ?_, ?_, rfl⟩
      · simp only [List.length_append, List.length_cons, List.length_nil, hflen, hglen]
        omega
      · simp only [List.length_append, List.length_cons, List.length_nil, hflen, hglen]
        omega
    · unfold set_custom_color
      rw [if_neg h]
      simp only [hf, hbg]
      have h1 : (b.m_text ++ ['\x1b', '['] ++ f).length - b.m_text.length ≠ 2 := by
        simp only [List.length_append, List.length_cons, List.length_nil, hflen]
        omega
      rw [if_pos h1]
      rw [if_neg hbr]
      have h3 : ((b.m_text ++ ['\x1b', '['] ++ f ++ [';']) ++ g).length
          - b.m_text.length > 2 := by
        simp only [List.length_append, List.length_cons, List.length_nil, hflen, hglen]
        omega
      rw [if_pos h3]
      refine ⟨['\x1b', '['] ++ f ++ [';'] ++ g ++ ['m'], by simp, ?_, ?_, rfl⟩
      · simp only [List.length_append, List.length_cons, List.length_nil, hflen, hglen]
        omega
      · simp only [List.length_append, List.length_cons, List.length_nil, hflen, hglen]
        omega

end Logg

namespace Logg

lemma flush_fst (env : Nat → List Char → Bool) (o : Sink) (b : LineBuffer) :
    (flush env o b).1 = { b with m_text := [] } := rfl

lemma set_custom_color_text_le (c : Nat) (b : LineBuffer) :
    (set_custom_color c b).m_text.length ≤ b.m_text.length + 10 := by
  by_cases h : c = color_sentinel
  · simp [set_custom_color, h]
  · obtain ⟨s, h1, _, h3, _⟩ := set_custom_color_spec c b h
    rw [h1]
    simp only [List.length_append]
    omega

lemma append_time_text_le (o : Sink) (ts : List Char) (b : LineBuffer) :
    (append_time o ts b).m_text.length ≤ b.m_text.length + 10 + ts.length := by
  have hs := set_custom_color_text_le o.m_custom_color b
  unfold append_time
  by_cases h : o.m_use_color = true <;>
    simp only [h, if_true, Bool.false_eq_true, if_false, List.length_append] <;>
    omega

lemma appendLoop_text_le (env : Nat → List Char → Bool) (o : Sink)
    (ts : List Char) (hts : ts.length + 10 ≤ s_limit) :
    ∀ (fuel : Nat) (buf : List Char) (b : LineBuffer) (acc : List (List Char)),
      b.m_text.length ≤ s_limit →
      ((appendLoop env o ts fuel buf b acc).1).m_text.length ≤ s_limit := by
  intro fuel
  induction fuel with
  | zero =>
    intro buf b acc hb
    simpa only [appendLoop] using hb
  | succ n ih =>
    intro buf b acc hb
    simp only [appendLoop]
    by_cases hcond : s_limit < buf.length + b.m_text.length
    · rw [if_pos hcond]
      apply ih
      by_cases hpre : ((buf.drop (min (s_limit - b.m_text.length) buf.length)).length
          != 0 && o.m_prepend_time) = true
      · rw [if_pos hpre, flush_fst]
        refine le_trans (append_time_text_le o ts _) ?_
        simp only [List.length_nil]
        omega
      · rw [if_neg hpre]
        rw [flush_fst]
        simp [s_limit]
    · rw [if_neg hcond]
      by_cases hnz : (buf.length != 0) = true
      · rw [if_pos hnz]
        simp only [List.length_append]
        omega
      · rw [if_neg hnz]
        exact hb

/-- C10: append never returns with the accumulated text (timestamp prefix
and color sequence included) over s_limit, given it starts within the limit
and the timestamp bytes fit alongside the at-most-10-byte color sequence
(the code clamps the timestamp to 32 bytes, far below the 990 allowed
here). -/
theorem C10_append_within_limit (env : Nat → List Char → Bool) (o : Sink)
    (ts buf : List Char) (b : LineBuffer)
    (hb : b.m_text.length ≤ s_limit) (hts : ts.length + 10 ≤ s_limit) :
    ((append env o ts buf b).1).m_text.length ≤ s_limit := by
  unfold append
  apply appendLoop_text_le env o ts hts
  by_cases h : (o.m_prepend_time && b.m_text.isEmpty) = true
  · rw [if_pos h]
    have h1 := append_time_text_le o ts b
    have h2 : b.m_text.length = 0 := by
      rw [Bool.and_eq_true] at h
      simpa [List.isEmpty_iff] using h.2
    omega
  · rw [if_neg h]
    exact hb

end Logg

namespace Logg

lemma chunksOf_ne_nil (c : Nat) (buf : List Char) : chunksOf c buf ≠ [] := by
  rw [chunksOf]
  split <;> simp

lemma getLastD_cons_of_ne_nil {α : Type} (a : α) (l : List α) (d : α)
    (h : l ≠ []) : (a :: l).getLastD d = l.getLastD d := by
  cases l with
  | nil => exact absurd rfl h
  | cons b t => simp [List.getLastD_cons]

lemma dropLast_cons_of_ne_nil {α : Type} (a : α) (l : List α) (h : l ≠ []) :
    (a :: l).dropLast = a :: l.dropLast := by
  cases l with
  | nil => exact absurd rfl h
  | cons b t => rfl

lemma map_dropLast_append {α β : Type} (f : α → β) (d : α) :
    ∀ l : List α, l ≠ [] → l.dropLast.map f ++ [f (l.getLastD d)] = l.map f := by
  intro l
  induction l with
  | nil => intro h; exact absurd rfl h
  | cons a t ih =>
    intro _
    cases t with
    | nil => simp
    | cons b t2 =>
      have h2 : (b :: t2) ≠ [] := by simp
      rw [dropLast_cons_of_ne_nil a (b :: t2) h2,
          getLastD_cons_of_ne_nil a (b :: t2) d h2]
      simp only [List.map_cons, List.cons_append]
      rw [ih h2]
      simp

lemma flush_sentinel (env : Nat → List Char → Bool) (o : Sink)
    (xs : List Char) :
    flush env o { m_text := xs, m_default_color := color_sentinel } =
      ({ m_text := [], m_default_color := color_sentinel }, xs ++ ['\n']) := by
  simp [flush, crlf]

lemma append_time_nocolor (o : Sink) (ts : List Char) (b : LineBuffer)
    (hcol : o.m_use_color = false) :
    append_time o ts b = { b with m_text := b.m_text ++ ts } := by
  simp [append_time, hcol]

lemma appendLoop_split (env : Nat → List Char → Bool) (o : Sink)
    (ts : List Char) (hcol : o.m_use_color = false)
    (hpre : o.m_prepend_time = true) (hts : ts.length < s_limit) :
    ∀ (fuel : Nat) (buf : List Char) (acc : List (List Char)),
      1 ≤ buf.length → buf.length + 1 ≤ fuel →
      appendLoop env o ts fuel buf
          { m_text := ts, m_default_color := color_sentinel } acc =
        ({ m_text := ts ++ (chunksOf (s_limit - ts.length) buf).getLastD [],
           m_default_color := color_sentinel },
         acc ++ ((chunksOf (s_limit - ts.length) buf).dropLast.map
           (fun ch => ts ++ ch ++ ['\n']))) := by
  intro fuel
  induction fuel with
  | zero => intro buf acc h1 h2; omega
  | succ n ih =>
    intro buf acc h1 h2
    simp only [appendLoop]
    by_cases hbig : s_limit < buf.length + ts.length
    · rw [if_pos hbig]
      have hcle : s_limit - ts.length ≤ buf.length := by omega
      rw [Nat.min_eq_left hcle, flush_sentinel]
      have hd1 : 1 ≤ (buf.drop (s_limit - ts.length)).length := by
        simp only [List.length_drop]
        omega
      have hdrop : ((buf.drop (s_limit - ts.length)).length != 0 && o.m_prepend_time) = true := by
        simp only [List.length_drop, hpre, Bool.and_true, ne_eq, bne_iff_ne]
        omega
      rw [if_pos hdrop, append_time_nocolor o ts _ hcol]
      dsimp only
      simp only [List.nil_append]
      have hrec := ih (buf.drop (s_limit - ts.length))
        (acc ++ [ts ++ buf.take (s_limit - ts.length) ++ ['\n']]) hd1
        (by simp only [List.length_drop]; omega)
      simp only [List.nil_append] at hrec
      rw [hrec]
      have hnn := chunksOf_ne_nil (s_limit - ts.length) (buf.drop (s_limit - ts.length))
      have hcond : ¬ (buf.length ≤ s_limit - ts.length ∨ s_limit - ts.length = 0) := by
        omega
      conv_rhs => rw [chunksOf]
      rw [if_neg hcond]
      rw [getLastD_cons_of_ne_nil _ _ _ hnn, dropLast_cons_of_ne_nil _ _ hnn]
      simp [List.append_assoc]
    · rw [if_neg hbig]
      have hnz : (buf.length != 0) = true := by
        simp only [ne_eq, bne_iff_ne]
        omega
      rw [if_pos hnz]
      rw [chunksOf]
      have hcond : buf.length ≤ s_limit - ts.length ∨ s_limit - ts.length = 0 := by
        omega
      rw [if_pos hcond]
      simp

end Logg

namespace Logg

lemma append_then_flush_spec (env : Nat → List Char → Bool) (o : Sink)
    (ts buf : List Char) (hcol : o.m_use_color = false)
    (hpre : o.m_prepend_time = true) (hts : ts.length < s_limit)
    (hbuf : 1 ≤ buf.length) :
    append_then_flush env o ts buf =
      (chunksOf (s_limit - ts.length) buf).map
        (fun ch => ts ++ ch ++ ['\n']) := by
  unfold append_then_flush append
  have hinit : (o.m_prepend_time && (line_buffer_init.m_text).isEmpty) = true := by
    simp [hpre, line_buffer_init]
  rw [if_pos hinit, append_time_nocolor o ts _ hcol]
  have hini2 : ({ line_buffer_init with
      m_text := line_buffer_init.m_text ++ ts } : LineBuffer) =
      { m_text := ts, m_default_color := color_sentinel } := by
    simp [line_buffer_init]
  rw [hini2]
  rw [appendLoop_split env o ts hcol hpre hts (buf.length + 2) buf [] hbuf
    (by omega)]
  dsimp only
  rw [flush_sentinel]
  dsimp only
  simp only [List.nil_append]
  exact map_dropLast_append _ [] _ (chunksOf_ne_nil _ _)

lemma chunksOf_length_eq (c : Nat) (hc : 1 ≤ c) :
    ∀ (n : Nat) (buf : List Char), buf.length ≤ n → 1 ≤ buf.length →
      (chunksOf c buf).length = (buf.length + c - 1) / c := by
  intro n
  induction n with
  | zero => intro buf hle h1; omega
  | succ m ih =>
    intro buf hle h1
    rw [chunksOf]
    by_cases hsmall : buf.length ≤ c ∨ c = 0
    · rw [if_pos hsmall]
      have hlc : buf.length ≤ c := by omega
      simp only [List.length_cons, List.length_nil]
      symm
      apply Nat.div_eq_of_lt_le <;> omega
    · rw [if_neg hsmall]
      simp only [List.length_cons]
      rw [ih (buf.drop c) (by simp only [List.length_drop]; omega)
        (by simp only [List.length_drop]; omega)]
      simp only [List.length_drop]
      have he1 : buf.length - c + c - 1 = buf.length - 1 := by omega
      have he2 : buf.length + c - 1 = buf.length - 1 + c := by omega
      rw [he1, he2, Nat.add_div_right _ hc]

lemma chunksOf_flatten (c : Nat) :
    ∀ (n : Nat) (buf : List Char), buf.length ≤ n →
      (chunksOf c buf).flatten = buf := by
  intro n
  induction n with
  | zero =>
    intro buf hle
    have hb : buf = [] := List.length_eq_zero.mp (by omega)
    subst hb
    rw [chunksOf]
    simp
  | succ m ih =>
    intro buf hle
    rw [chunksOf]
    by_cases hsmall : buf.length ≤ c ∨ c = 0
    · rw [if_pos hsmall]
      simp
    · rw [if_neg hsmall]
      simp only [List.flatten_cons]
      rw [ih (buf.drop c) (by simp only [List.length_drop]; omega)]
      exact List.take_append_drop c buf

lemma chunksOf_chunk_le (c : Nat) (hc : 1 ≤ c) :
    ∀ (n : Nat) (buf : List Char), buf.length ≤ n →
      ∀ ch ∈ chunksOf c buf, ch.length ≤ c := by
  intro n
  induction n with
  | zero =>
    intro buf hle ch hch
    have hb : buf = [] := List.length_eq_zero.mp (by omega)
    subst hb
    rw [chunksOf] at hch
    simp at hch
    subst hch
    simp
  | succ m ih =>
    intro buf hle ch hch
    rw [chunksOf] at hch
    by_cases hsmall : buf.length ≤ c ∨ c = 0
    · rw [if_pos hsmall] at hch
      simp at hch
      subst hch
      omega
    · rw [if_neg hsmall] at hch
      simp only [List.mem_cons] at hch
      rcases hch with hch | hch
      · subst hch
        simp only [List.length_take]
        omega
      · exact ih (buf.drop c) (by simp only [List.length_drop]; omega) ch hch

end Logg

namespace Logg

/-- C1 (amended): timestamping is unconditionally enabled in the logger, and
the timestamp occupies buffer space, so an input of length L followed by the
line-ending flush produces ⌈L/(s_limit − |ts|)⌉ flushed lines — not
⌈L/s_limit⌉ — each carrying at most s_limit bytes of content excluding the
timestamp prefix, and the concatenation of the contents (prefixes and
terminators removed) is exactly the input.  Stated here on a sink whose
color is disabled, so the per-line prefix is the timestamp alone. -/
theorem C1_long_input_split (env : Nat → List Char → Bool) (o : Sink)
    (ts buf : List Char) (hcol : o.m_use_color = false)
    (hpre : o.m_prepend_time = true) (hts : ts.length < s_limit)
    (hL : s_limit < buf.length) :
    (append_then_flush env o ts buf).length =
      (buf.length + (s_limit - ts.length) - 1) / (s_limit - ts.length) ∧
    (∀ l ∈ append_then_flush env o ts buf,
      ∃ content, l = ts ++ content ++ ['\n'] ∧ content.length ≤ s_limit) ∧
    ((append_then_flush env o ts buf).map
      (fun l => (l.drop ts.length).dropLast)).flatten = buf := by
  have hspec := append_then_flush_spec env o ts buf hcol hpre hts (by omega)
  rw [hspec]
  have hc : 1 ≤ s_limit - ts.length := by omega
  refine ⟨?_, ?_, ?_⟩
  · rw [List.length_map]
    exact chunksOf_length_eq _ hc buf.length buf le_rfl (by omega)
  · intro l hl
    rw [List.mem_map] at hl
    obtain ⟨ch, hch, hl⟩ := hl
    refine ⟨ch, hl.symm, ?_⟩
    have := chunksOf_chunk_le _ hc buf.length buf le_rfl ch hch
    omega
  · rw [List.map_map]
    have hcomp : ∀ ch ∈ chunksOf (s_limit - ts.length) buf,
        ((fun l => (l.drop ts.length).dropLast) ∘
          (fun ch => ts ++ ch ++ ['\n'])) ch = id ch := by
      intro ch _
      simp only [Function.comp_apply, id_eq, List.append_assoc, List.drop_left]
      rw [List.dropLast_concat]
    rw [List.map_congr_left hcomp, List.map_id]
    exact chunksOf_flatten _ buf.length buf le_rfl

end Logg

namespace Logg

theorem C1_witness :
    o_plain.m_use_color = false ∧ o_plain.m_prepend_time = true ∧
    ts24.length < s_limit ∧ s_limit < (List.replicate 1001 'a').length ∧
    ((append_then_flush env_true o_plain ts24 (List.replicate 1001 'a')).length =
        ((List.replicate 1001 'a').length + (s_limit - ts24.length) - 1) /
          (s_limit - ts24.length) ∧
      (∀ l ∈ append_then_flush env_true o_plain ts24 (List.replicate 1001 'a'),
        ∃ content, l = ts24 ++ content ++ ['\n'] ∧ content.length ≤ s_limit) ∧
      ((append_then_flush env_true o_plain ts24 (List.replicate 1001 'a')).map
        (fun l => (l.drop ts24.length).dropLast)).flatten =
        List.replicate 1001 'a') :=
  ⟨rfl, rfl, by decide,
   by rw [List.length_replicate]; norm_num [s_limit],
   C1_long_input_split env_true o_plain ts24 (List.replicate 1001 'a') rfl rfl
     (by decide) (by rw [List.length_replicate]; norm_num [s_limit])⟩

/-- C1 counterexample: with the 24-byte timestamp prefix, appending 1953
bytes (then ending the line) produces 3 flushed lines, while the claim
predicts ⌈1953/1000⌉ = 2. -/
theorem C1_counterexample :
    (append_then_flush env_true o_plain ts24 (List.replicate 1953 'a')).length =
      3 ∧
    ((List.replicate 1953 'a').length + s_limit - 1) / s_limit = 2 := by
  constructor
  · rw [append_then_flush_spec env_true o_plain ts24 (List.replicate 1953 'a')
      rfl rfl (by decide) (by rw [List.length_replicate]; norm_num)]
    rw [List.length_map]
    rw [chunksOf_length_eq (s_limit - ts24.length) (by decide)
      (List.replicate 1953 'a').length _ le_rfl
      (by rw [List.length_replicate]; norm_num)]
    rw [List.length_replicate]
    norm_num [s_limit, ts24]
  · rw [List.length_replicate]
    norm_num [s_limit]

end Logg

namespace Logg

/-- C3 (amended): for every non-sentinel color value the ANSI render always
emits an escape sequence — the foreground switch covers all eight masked
values (fg_black included, as "30"), so the "no code produced" erase branch
is unreachable and no non-sentinel color renders like the sentinel. -/
theorem C3_nonsentinel_always_renders (c : Nat) (b : LineBuffer)
    (h : c ≠ color_sentinel) :
    ∃ s, (set_custom_color c b).m_text = b.m_text ++ s ∧ 5 ≤ s.length ∧
      (set_custom_color c b).m_default_color = c := by
  obtain ⟨s, h1, h2, _, h4⟩ := set_custom_color_spec c b h
  exact ⟨s, h1, h2, h4⟩

/-- Witness for C3 at the concrete color fg_black|bg_black. -/
theorem C3_nonsentinel_always_renders_witness :
    (fg_black ||| bg_black) ≠ color_sentinel ∧
    (∃ s, (set_custom_color (fg_black ||| bg_black) line_buffer_init).m_text =
        line_buffer_init.m_text ++ s ∧ 5 ≤ s.length ∧
      (set_custom_color (fg_black ||| bg_black)
        line_buffer_init).m_default_color = (fg_black ||| bg_black)) :=
  ⟨by decide, C3_nonsentinel_always_renders _ _ (by decide)⟩

/-- C3 counterexample: fg_black|bg_black with no bright bit (value 0) is a
non-sentinel color whose render is the escape sequence ESC[30;40m — not "no
sequence", and different from the sentinel's empty render. -/
theorem C3_counterexample :
    (set_custom_color (fg_black ||| bg_black) line_buffer_init).m_text =
      ['\x1b', '[', '3', '0', ';', '4', '0', 'm'] ∧
    (set_custom_color color_sentinel line_buffer_init).m_text = [] := by
  decide

/-- Witness for C10 at a concrete small append. -/
theorem C10_append_within_limit_witness :
    line_buffer_init.m_text.length ≤ s_limit ∧ ts24.length + 10 ≤ s_limit ∧
    ((append env_true o_plain ts24 ['h', 'i']
      line_buffer_init).1).m_text.length ≤ s_limit :=
  ⟨by decide, by decide,
   C10_append_within_limit env_true o_plain ts24 ['h', 'i'] line_buffer_init
     (by decide) (by decide)⟩

end Logg
